import Mathlib

/-!
Verification of `cet` (Compiler Explorer Terminal), a Go CLI in `main.go` that
sends local source files to a remote compilation service and renders the
returned assembly, recompiling on file change.

Modelling conventions for the shallow embedding:

* File-system paths are modelled as lists of components (`FPath := List String`);
  the Go code only ever builds paths with `filepath.Join`/`WalkDir` (append one
  component) and compares them with `==`, takes `filepath.Ext` (extension of the
  final component) and `filepath.Rel` (lexical relativisation), all of which are
  component-wise operations.
* The directory tree seen by `filepath.WalkDir` is a finite tree `FsTree`;
  `WalkDir` visits the root, then children in directory order (the order of the
  `children` list), pruning a directory when the callback returns `SkipDir`.
* I/O effects of `compile` (reading the main file, collecting project files,
  performing the HTTP round trip, reading and parsing the response body) are
  oracles supplied in a `CompileWorld` record; `compile` is the pure function of
  those oracle outcomes that mirrors the Go control flow.
-/

/-- A path, as its list of components (`filepath.Join` appends a component). -/
abbrev FPath := List String

/-- Go `filepath.Ext` restricted to a single path component: the suffix of the
name starting at its final dot (dot included), `""` when there is no dot. -/
def extOf (name : String) : String :=
  match extOfAux name.toList with
  | some e => String.mk e
  | none => ""
where
  /-- Suffix of the character list starting at its last `'.'`. -/
  extOfAux : List Char → Option (List Char)
    | [] => none
    | c :: cs =>
      match extOfAux cs with
      | some e => some e
      | none => if c = '.' then some (c :: cs) else none

/-- Go `filepath.Ext` of a full path: the extension of its final component
(`filepath.Ext` never crosses a path separator). -/
def pathExt (p : FPath) : String := extOf (p.getLastD "")

/-- One step of Go `filepath.Rel`’s lexical computation: drop the common
leading components of base and target. -/
def dropCommon : FPath → FPath → FPath × FPath
  | b :: bs, t :: ts => if b = t then dropCommon bs ts else (b :: bs, t :: ts)
  | bs, ts => (bs, ts)

/-- Model of Go `filepath.Rel base targ` on cleaned paths: drop the common
prefix, then climb out of the remaining base components with `..` and descend
into the remaining target components.  `filepath.Rel`’s result `"."` (equal
paths) is the empty component list. -/
def relPath (base targ : FPath) : FPath :=
  let (b, t) := dropCommon base targ
  List.replicate b.length ".." ++ t

/-- The directory tree walked by `filepath.WalkDir`: a regular file with its
contents, or a directory with its entries (in directory order). -/
inductive FsTree where
  | file (name : String) (contents : String)
  | dir (name : String) (children : List FsTree)


/-- `fs.DirEntry.Name()`: the node’s own (base) name. -/
def FsTree.name : FsTree → String
  | .file n _ => n
  | .dir n _ => n

/-- The skip list of `collectProjectFiles` (`main.go` lines 87–90). -/
def skipDirs : List String :=
  [".zig-cache", ".git", ".idea", "node_modules", "target", "zig-out"]

/-- `FileEntry` (`main.go` lines 26–29): one entry of the request’s `files`
array; `Filename` is a (relative) path, `Contents` the file’s contents. -/
structure FileEntry where
  Filename : FPath
  Contents : String
deriving Repr, DecidableEq

mutual

/-- The `filepath.WalkDir` traversal inside `collectProjectFiles`
(`main.go` lines 92–124), at a node whose full path is `path`: a directory
whose name is in `skipDirs` is pruned (`filepath.SkipDir`); a regular file is
collected (as its full path paired with its contents) exactly when its
extension equals `ext`, its path differs from `mainFile`, and its name is not
`"build.zig"` (line 104). -/
def walkCollect (ext : String) (mainFile : FPath) (path : FPath) : FsTree → List (FPath × String)
  | .file name contents =>
    if pathExt path = ext ∧ path ≠ mainFile ∧ name ≠ "build.zig" then
      [(path, contents)]
    else []
  | .dir name children =>
    if name ∈ skipDirs then [] else walkCollectList ext mainFile path children

/-- `walkCollect` over a directory’s entries, visited in directory order; the
child at name `n` has full path `path ++ [n]` (`filepath.Join`). -/
def walkCollectList (ext : String) (mainFile : FPath) (path : FPath) : List FsTree → List (FPath × String)
  | [] => []
  | c :: cs =>
    walkCollect ext mainFile (path ++ [c.name]) c ++ walkCollectList ext mainFile path cs

end

/-- `collectProjectFiles` (`main.go` lines 83–127) on the tree `tree` rooted at
`searchDir`: walk the tree collecting sibling source files, and emit each as a
`FileEntry` whose `Filename` is the file’s path made relative to
`relativeToDir` (line 114) and whose `Contents` is the file’s contents.
The error return is `nil` in the pure model (no I/O failures); `compile`’s
handling of a failing collection is modelled separately in `CompileWorld`. -/
def collectProjectFiles (searchDir : FPath) (tree : FsTree) (mainFile relativeToDir : FPath) :
    List FileEntry :=
  let ext := pathExt mainFile
  (walkCollect ext mainFile searchDir tree).map fun pc =>
    { Filename := relPath relativeToDir pc.1, Contents := pc.2 }

mutual

/-- All regular files in the tree rooted at `path`: triples of the file’s own
name, its full path, and its contents. -/
def allEntries (path : FPath) : FsTree → List (String × FPath × String)
  | .file n c => [(n, path, c)]
  | .dir _ children => allEntriesList path children

/-- `allEntries` over a directory’s entries. -/
def allEntriesList (path : FPath) : List FsTree → List (String × FPath × String)
  | [] => []
  | c :: cs => allEntries (path ++ [c.name]) c ++ allEntriesList path cs

end

mutual

/-- Paths of the regular files lying under some directory whose name is in
`skipDirs`, at any depth strictly below the root `path` (the specification-side
predicate of claim C2). -/
def filesUnderSkip (path : FPath) : FsTree → List FPath
  | .file _ _ => []
  | .dir _ children => filesUnderSkipList path children

/-- `filesUnderSkip` over a directory’s entries. -/
def filesUnderSkipList (path : FPath) : List FsTree → List FPath
  | [] => []
  | c :: cs => filesUnderSkipChild path c ++ filesUnderSkipList path cs

/-- Contribution of one directory entry: every file inside a child directory
named in `skipDirs` counts; other child directories are searched recursively;
a child file lies under no skip directory at this level. -/
def filesUnderSkipChild (path : FPath) : FsTree → List FPath
  | .file _ _ => []
  | .dir n ch =>
    if n ∈ skipDirs then (allEntriesList (path ++ [n]) ch).map (fun e => e.2.1)
    else filesUnderSkipList (path ++ [n]) ch

end

/-- Every pair collected by the walk below a directory’s entries is a regular
file of the tree (with its name, full path and contents enumerated by
`allEntriesList`), its name is not `build.zig`, its extension is `ext`, and its
path is not the main file’s. -/
theorem walkCollectList_mem (ext : String) (mf : FPath) :
    ∀ (path : FPath) (l : List FsTree) (p : FPath) (c : String),
      (p, c) ∈ walkCollectList ext mf path l →
      ∃ n, (n, p, c) ∈ allEntriesList path l ∧ n ≠ "build.zig" ∧ pathExt p = ext ∧ p ≠ mf
  | _path, [], _p, _c, h => by simp [walkCollectList] at h
  | path, FsTree.file nm ct :: ts, p, c, h => by
    simp only [walkCollectList, walkCollect, FsTree.name, List.mem_append] at h
    rcases h with h | h
    · split at h
      next hcond =>
        simp only [List.mem_singleton, Prod.mk.injEq] at h
        obtain ⟨rfl, rfl⟩ := h
        refine ⟨nm, ?_, hcond.2.2, hcond.1, hcond.2.1⟩
        simp [allEntriesList, allEntries, FsTree.name]
      next => simp at h
    · obtain ⟨m, hm, hrest⟩ := walkCollectList_mem ext mf path ts p c h
      exact ⟨m, by simp only [allEntriesList, List.mem_append]; exact Or.inr hm, hrest⟩
  | path, FsTree.dir n ch :: ts, p, c, h => by
    simp only [walkCollectList, walkCollect, FsTree.name, List.mem_append] at h
    rcases h with h | h
    · split at h
      next => simp at h
      next =>
        obtain ⟨m, hm, hrest⟩ := walkCollectList_mem ext mf (path ++ [n]) ch p c h
        refine ⟨m, ?_, hrest⟩
        simp only [allEntriesList, allEntries, List.mem_append]
        exact Or.inl hm
    · obtain ⟨m, hm, hrest⟩ := walkCollectList_mem ext mf path ts p c h
      exact ⟨m, by simp only [allEntriesList, List.mem_append]; exact Or.inr hm, hrest⟩

/-- `walkCollectList_mem` lifted to the root of the walk. -/
theorem walkCollect_mem (ext : String) (mf path : FPath) (t : FsTree) (p : FPath) (c : String)
    (h : (p, c) ∈ walkCollect ext mf path t) :
    ∃ n, (n, p, c) ∈ allEntries path t ∧ n ≠ "build.zig" ∧ pathExt p = ext ∧ p ≠ mf := by
  match t with
  | FsTree.file nm ct =>
    simp only [walkCollect] at h
    split at h
    next hcond =>
      simp only [List.mem_singleton, Prod.mk.injEq] at h
      obtain ⟨rfl, rfl⟩ := h
      exact ⟨nm, by simp [allEntries], hcond.2.2, hcond.1, hcond.2.1⟩
    next => simp at h
  | FsTree.dir n ch =>
    simp only [walkCollect] at h
    split at h
    next => simp at h
    next =>
      obtain ⟨m, hm, hrest⟩ := walkCollectList_mem ext mf path ch p c h
      exact ⟨m, by simpa [allEntries] using hm, hrest⟩

/-- Every path collected by the walk below a directory’s entries decomposes as
the root path, a chain of directory names none of which is in `skipDirs`, and a
final file name. -/
theorem walkCollectList_shape (ext : String) (mf : FPath) :
    ∀ (path : FPath) (l : List FsTree) (p : FPath) (c : String),
      (p, c) ∈ walkCollectList ext mf path l →
      ∃ ds f, p = path ++ ds ++ [f] ∧ ∀ d ∈ ds, d ∉ skipDirs
  | _path, [], _p, _c, h => by simp [walkCollectList] at h
  | path, FsTree.file nm _ct :: ts, p, c, h => by
    simp only [walkCollectList, walkCollect, FsTree.name, List.mem_append] at h
    rcases h with h | h
    · split at h
      next =>
        simp only [List.mem_singleton, Prod.mk.injEq] at h
        exact ⟨[], nm, by simp [h.1], by simp⟩
      next => simp at h
    · exact walkCollectList_shape ext mf path ts p c h
  | path, FsTree.dir n ch :: ts, p, c, h => by
    simp only [walkCollectList, walkCollect, FsTree.name, List.mem_append] at h
    rcases h with h | h
    · split at h
      next => simp at h
      next hn =>
        obtain ⟨ds, f, hp, hds⟩ := walkCollectList_shape ext mf (path ++ [n]) ch p c h
        refine ⟨n :: ds, f, by simp [hp], ?_⟩
        intro d hd
        rcases List.mem_cons.1 hd with rfl | hd
        · exact hn
        · exact hds d hd
    · exact walkCollectList_shape ext mf path ts p c h

/-- Every file path enumerated below a directory’s entries decomposes as the
root path, a chain of directory names, and a final file name. -/
theorem allEntriesList_shape :
    ∀ (path : FPath) (l : List FsTree) (n : String) (q : FPath) (c : String),
      (n, q, c) ∈ allEntriesList path l → ∃ ds f, q = path ++ ds ++ [f]
  | _path, [], _n, _q, _c, h => by simp [allEntriesList] at h
  | path, FsTree.file nm _ct :: ts, n, q, c, h => by
    simp only [allEntriesList, allEntries, FsTree.name, List.mem_append,
      List.mem_singleton, Prod.mk.injEq] at h
    rcases h with ⟨_, hq, _⟩ | h
    · exact ⟨[], nm, by simp [hq]⟩
    · exact allEntriesList_shape path ts n q c h
  | path, FsTree.dir m ch :: ts, n, q, c, h => by
    simp only [allEntriesList, allEntries, FsTree.name, List.mem_append] at h
    rcases h with h | h
    · obtain ⟨ds, f, hq⟩ := allEntriesList_shape (path ++ [m]) ch n q c h
      exact ⟨m :: ds, f, by simp [hq]⟩
    · exact allEntriesList_shape path ts n q c h

/-- Every path below a directory’s entries that lies under a skip-named
directory decomposes as the root path, a chain of directory names at least one
of which is in `skipDirs`, and a final file name. -/
theorem filesUnderSkipList_shape :
    ∀ (path : FPath) (l : List FsTree) (q : FPath),
      q ∈ filesUnderSkipList path l →
      ∃ ds f, q = path ++ ds ++ [f] ∧ ∃ d ∈ ds, d ∈ skipDirs
  | _path, [], _q, h => by simp [filesUnderSkipList] at h
  | path, FsTree.file _ _ :: ts, q, h => by
    simp only [filesUnderSkipList, filesUnderSkipChild, List.nil_append] at h
    exact filesUnderSkipList_shape path ts q h
  | path, FsTree.dir m ch :: ts, q, h => by
    simp only [filesUnderSkipList, filesUnderSkipChild, List.mem_append] at h
    rcases h with h | h
    · split at h
      next hm =>
        simp only [List.mem_map] at h
        obtain ⟨⟨n, q₀, c⟩, hmem, hq⟩ := h
        obtain ⟨ds, f, hq₀⟩ := allEntriesList_shape (path ++ [m]) ch n q₀ c hmem
        exact ⟨m :: ds, f, by simp [← hq, hq₀], m, by simp, hm⟩
      next =>
        obtain ⟨ds, f, hq, d, hd, hdskip⟩ := filesUnderSkipList_shape (path ++ [m]) ch q h
        exact ⟨m :: ds, f, by simp [hq], d, by simp [hd], hdskip⟩
    · exact filesUnderSkipList_shape path ts q h

/-- A path collected by the walk never lies under a skip-named directory:
collected paths decompose with a clean directory chain, skipped paths with a
dirty one, and the two decompositions of one path must agree. -/
theorem walkCollect_not_underSkip (ext : String) (mf sd : FPath) (t : FsTree)
    (p : FPath) (c : String) (h : (p, c) ∈ walkCollect ext mf sd t) :
    p ∉ filesUnderSkip sd t := by
  match t with
  | FsTree.file _ _ => simp [filesUnderSkip]
  | FsTree.dir n ch =>
    intro hskip
    simp only [walkCollect] at h
    split at h
    next => simp at h
    next =>
      obtain ⟨ds₂, f₂, hp₂, hclean⟩ := walkCollectList_shape ext mf sd ch p c h
      simp only [filesUnderSkip] at hskip
      obtain ⟨ds₁, f₁, hp₁, d, hd, hdskip⟩ := filesUnderSkipList_shape sd ch p hskip
      rw [hp₁, List.append_assoc, List.append_assoc] at hp₂
      have h₂ := List.append_cancel_left hp₂
      have h₃ := (List.append_inj' h₂ rfl).1
      exact hclean d (h₃ ▸ hd) hdskip

/-- A concrete project tree used to instantiate the claims: a root with a main
file, a matching sibling, a `build.zig`, a file of another extension, a `.git`
directory holding a matching file, and an ordinary subdirectory. -/
def sampleTree : FsTree :=
  .dir "proj"
    [ .file "main.zig" "pub fn main() void {}"
    , .file "helper.zig" "pub const x = 1;"
    , .file "build.zig" "build"
    , .file "notes.txt" "text"
    , .dir ".git" [ .file "cfg.zig" "secret" ]
    , .dir "srcx" [ .file "util.zig" "util" ] ]

/-- Claim C1: for every search directory, main file, and relative-to directory,
every entry in the list returned by `collectProjectFiles` is a regular file of
the searched tree whose extension equals the main file’s extension, and the
main file itself is never in the list (every entry stems from a path different
from the main file’s). -/
theorem collectProjectFiles_entries_matching_siblings
    (searchDir : FPath) (tree : FsTree) (mainFile relativeToDir : FPath)
    (e : FileEntry) (he : e ∈ collectProjectFiles searchDir tree mainFile relativeToDir) :
    ∃ n p c, (n, p, c) ∈ allEntries searchDir tree ∧
      pathExt p = pathExt mainFile ∧ p ≠ mainFile ∧
      e = { Filename := relPath relativeToDir p, Contents := c } := by
  simp only [collectProjectFiles, List.mem_map] at he
  obtain ⟨⟨p, c⟩, hw, rfl⟩ := he
  obtain ⟨n, hn, _hb, hext, hne⟩ := walkCollect_mem (pathExt mainFile) mainFile searchDir tree p c hw
  exact ⟨n, p, c, hn, hext, hne, rfl⟩

/-- Witness for C1 at the sample tree: the entry `helper.zig` of the returned
list stems from a regular file of the tree with the main file’s extension. -/
theorem collectProjectFiles_entries_matching_siblings_witness :
    ∃ n p c, (n, p, c) ∈ allEntries ["proj"] sampleTree ∧
      pathExt p = pathExt ["proj", "main.zig"] ∧ p ≠ ["proj", "main.zig"] ∧
      ({ Filename := ["helper.zig"], Contents := "pub const x = 1;" } : FileEntry) =
        { Filename := relPath ["proj"] p, Contents := c } :=
  collectProjectFiles_entries_matching_siblings ["proj"] sampleTree
    ["proj", "main.zig"] ["proj"]
    { Filename := ["helper.zig"], Contents := "pub const x = 1;" } (by decide)

/-- Claim C2: no file lying under a directory named `.zig-cache`, `.git`,
`.idea`, `node_modules`, `target` or `zig-out`, at any depth below the search
directory, appears in the list returned by `collectProjectFiles`: every entry
stems from a walked path that is not in `filesUnderSkip`. -/
theorem collectProjectFiles_avoids_skipDirs
    (searchDir : FPath) (tree : FsTree) (mainFile relativeToDir : FPath)
    (e : FileEntry) (he : e ∈ collectProjectFiles searchDir tree mainFile relativeToDir) :
    ∃ p c, (p, c) ∈ walkCollect (pathExt mainFile) mainFile searchDir tree ∧
      p ∉ filesUnderSkip searchDir tree ∧
      e = { Filename := relPath relativeToDir p, Contents := c } := by
  simp only [collectProjectFiles, List.mem_map] at he
  obtain ⟨⟨p, c⟩, hw, rfl⟩ := he
  exact ⟨p, c, hw,
    walkCollect_not_underSkip (pathExt mainFile) mainFile searchDir tree p c hw, rfl⟩

/-- Witness for C2 at the sample tree: the entry `srcx/util.zig` stems from a
path that lies under no skip-named directory. -/
theorem collectProjectFiles_avoids_skipDirs_witness :
    ∃ p c, (p, c) ∈ walkCollect (pathExt ["proj", "main.zig"]) ["proj", "main.zig"]
        ["proj"] sampleTree ∧
      p ∉ filesUnderSkip ["proj"] sampleTree ∧
      ({ Filename := ["srcx", "util.zig"], Contents := "util" } : FileEntry) =
        { Filename := relPath ["proj"] p, Contents := c } :=
  collectProjectFiles_avoids_skipDirs ["proj"] sampleTree ["proj", "main.zig"] ["proj"]
    { Filename := ["srcx", "util.zig"], Contents := "util" } (by decide)

/-- Claim C3: `collectProjectFiles` returns a flat list of `FileEntry` records
(the return type `List FileEntry` is not nested), and each entry’s `Filename`
is the underlying file’s path made relative to the relative-to directory while
its `Contents` is that file’s full contents. -/
theorem collectProjectFiles_filename_relative_contents_full
    (searchDir : FPath) (tree : FsTree) (mainFile relativeToDir : FPath)
    (e : FileEntry) (he : e ∈ collectProjectFiles searchDir tree mainFile relativeToDir) :
    ∃ n p c, (n, p, c) ∈ allEntries searchDir tree ∧
      e.Filename = relPath relativeToDir p ∧ e.Contents = c := by
  simp only [collectProjectFiles, List.mem_map] at he
  obtain ⟨⟨p, c⟩, hw, rfl⟩ := he
  obtain ⟨n, hn, _⟩ := walkCollect_mem (pathExt mainFile) mainFile searchDir tree p c hw
  exact ⟨n, p, c, hn, rfl, rfl⟩

/-- Witness for C3 at the sample tree: the entry `srcx/util.zig` carries the
path of the underlying file relative to `proj` and its full contents. -/
theorem collectProjectFiles_filename_relative_contents_full_witness :
    ∃ n p c, (n, p, c) ∈ allEntries ["proj"] sampleTree ∧
      ({ Filename := ["srcx", "util.zig"], Contents := "util" } : FileEntry).Filename =
        relPath ["proj"] p ∧
      ({ Filename := ["srcx", "util.zig"], Contents := "util" } : FileEntry).Contents = c :=
  collectProjectFiles_filename_relative_contents_full ["proj"] sampleTree
    ["proj", "main.zig"] ["proj"]
    { Filename := ["srcx", "util.zig"], Contents := "util" } (by decide)

/-- Claim C9: a file named `build.zig` is never included in the list returned
by `collectProjectFiles`, even when its extension matches the main file’s:
every returned entry stems from a file whose name is not `build.zig`. -/
theorem collectProjectFiles_excludes_build_zig
    (searchDir : FPath) (tree : FsTree) (mainFile relativeToDir : FPath)
    (e : FileEntry) (he : e ∈ collectProjectFiles searchDir tree mainFile relativeToDir) :
    ∃ n p c, (n, p, c) ∈ allEntries searchDir tree ∧ n ≠ "build.zig" ∧
      e = { Filename := relPath relativeToDir p, Contents := c } := by
  simp only [collectProjectFiles, List.mem_map] at he
  obtain ⟨⟨p, c⟩, hw, rfl⟩ := he
  obtain ⟨n, hn, hb, _⟩ := walkCollect_mem (pathExt mainFile) mainFile searchDir tree p c hw
  exact ⟨n, p, c, hn, hb, rfl⟩

/-- Witness for C9 at the sample tree (which holds a `build.zig` whose
extension matches the main file’s): the entry `helper.zig` stems from a file
not named `build.zig`. -/
theorem collectProjectFiles_excludes_build_zig_witness :
    ∃ n p c, (n, p, c) ∈ allEntries ["proj"] sampleTree ∧ n ≠ "build.zig" ∧
      ({ Filename := ["helper.zig"], Contents := "pub const x = 1;" } : FileEntry) =
        { Filename := relPath ["proj"] p, Contents := c } :=
  collectProjectFiles_excludes_build_zig ["proj"] sampleTree ["proj", "main.zig"] ["proj"]
    { Filename := ["helper.zig"], Contents := "pub const x = 1;" } (by decide)

/-- `Filters` (`main.go` lines 42–50). -/
structure Filters where
  Binary : Bool
  CommentOnly : Bool
  Demangle : Bool
  Directives : Bool
  Intel : Bool
  Labels : Bool
  Trim : Bool
deriving Repr, DecidableEq

/-- `CompileOptions` (`main.go` lines 37–40). -/
structure CompileOptions where
  UserArguments : String
  Filters : Filters
deriving Repr, DecidableEq

/-- `CompileRequest` (`main.go` lines 31–35): the JSON body POSTed to the
compilation service. -/
structure CompileRequest where
  Source : String
  Options : CompileOptions
  Files : List FileEntry
deriving Repr, DecidableEq

/-- `OutputLine` (`main.go` lines 59–61). -/
structure OutputLine where
  Text : String
deriving Repr, DecidableEq

/-- `CompileResponse` (`main.go` lines 52–57), with `Asm` kept as its lines’
texts (the `source` back-references play no role in any claim). -/
structure CompileResponse where
  Code : Int
  Stdout : List OutputLine
  Stderr : List OutputLine
  Asm : List String
deriving Repr, DecidableEq

/-- The filter block built inside `compile` (`main.go` lines 222–230). -/
def compileFilters : Filters :=
  { Binary := false, CommentOnly := true, Demangle := true, Directives := true,
    Intel := true, Labels := true, Trim := false }

/-- The request constructed by `compile` (`main.go` lines 217–232) from the
main file’s contents, the collected project files and the `-args` flag. -/
def buildCompileRequest (source : String) (projectFiles : List FileEntry) (args : String) :
    CompileRequest :=
  { Source := source,
    Files := projectFiles,
    Options := { UserArguments := args, Filters := compileFilters } }

/-- The URL `compile` POSTs to (`main.go` line 239). -/
def compileURL (baseURL compiler : String) : String :=
  baseURL ++ "/api/compiler/" ++ compiler ++ "/compile"

/-- Oracle outcomes of the I/O steps one invocation of `compile` performs, in
program order: `os.ReadFile` of the main file (line 180), the
`collectProjectFiles` call with its error return (line 211), `client.Do`
(line 249), `io.ReadAll` of the response body (line 255), and
`json.Unmarshal` (line 261).  `json.Marshal`, `filepath.Abs` and
`http.NewRequest` cannot fail on the values `compile` passes them and are
modelled as total. -/
structure CompileWorld where
  readMainFile : Except String String
  collect : Except String (List FileEntry)
  doRequest : Except String Unit
  readBody : Except String String
  parseBody : Except String CompileResponse

/-- What one invocation of `compile` did: the warnings it printed, the POST
requests it issued (as URL–body pairs, in order), and its return value. -/
structure CompileOutcome where
  warnings : List String
  posts : List (String × CompileRequest)
  result : Except String Unit
deriving Repr

/-- `compile` (`main.go` lines 179–287) as a pure function of the flag values
and the oracle outcomes of its I/O steps, mirroring the Go control flow: a
failed read of the main file returns at once; a failed collection only prints
a warning and continues with `projectFiles = nil`; then exactly one POST of
the marshalled request is attempted, and a failure of the send, of reading the
body, or of parsing it returns that step’s error with no further request. -/
def compileModel (baseURL compiler args : String) (w : CompileWorld) : CompileOutcome :=
  match w.readMainFile with
  | .error e => { warnings := [], posts := [], result := .error ("failed to read file: " ++ e) }
  | .ok source =>
    let warnings := match w.collect with
      | .ok _ => []
      | .error e => ["Warning: could not collect project files: " ++ e]
    let projectFiles := match w.collect with
      | .ok fs => fs
      | .error _ => []
    let req := buildCompileRequest source projectFiles args
    let url := compileURL baseURL compiler
    match w.doRequest with
    | .error e =>
      { warnings := warnings, posts := [(url, req)],
        result := .error ("failed to send request: " ++ e) }
    | .ok _ =>
      match w.readBody with
      | .error e =>
        { warnings := warnings, posts := [(url, req)],
          result := .error ("failed to read response: " ++ e) }
      | .ok _body =>
        match w.parseBody with
        | .error e =>
          { warnings := warnings, posts := [(url, req)],
            result := .error ("failed to parse response: " ++ e) }
        | .ok _resp =>
          { warnings := warnings, posts := [(url, req)], result := .ok () }

/-- The POSTs issued by one `compile` invocation, computed from the read and
collect outcomes alone: none when the main file cannot be read, otherwise
exactly one POST of the request built from the source, the collected files
(empty on a failed collection) and the arguments. -/
theorem compileModel_posts (baseURL compiler args : String) (w : CompileWorld) :
    (compileModel baseURL compiler args w).posts =
      match w.readMainFile, w.collect with
      | .error _, _ => []
      | .ok source, .ok fs =>
        [(compileURL baseURL compiler, buildCompileRequest source fs args)]
      | .ok source, .error _ =>
        [(compileURL baseURL compiler, buildCompileRequest source [] args)] := by
  cases hr : w.readMainFile <;> cases hc : w.collect <;>
    cases hd : w.doRequest <;> cases hb : w.readBody <;> cases hp : w.parseBody <;>
    simp [compileModel, hr, hc, hd, hb, hp]

/-- Claim C4: each `compile` invocation is stateless — the model takes no state
from previous invocations, and two invocations whose oracles agree on the main
file’s contents and on the collected project files, run with the same compiler
arguments, issue identical POSTed compile requests (same source, files list,
user arguments and filter settings). -/
theorem compile_requests_deterministic (baseURL compiler args : String)
    (w₁ w₂ : CompileWorld) (h₁ : w₁.readMainFile = w₂.readMainFile)
    (h₂ : w₁.collect = w₂.collect) :
    (compileModel baseURL compiler args w₁).posts =
      (compileModel baseURL compiler args w₂).posts := by
  rw [compileModel_posts, compileModel_posts, h₁, h₂]

/-- Witness for C4: two invocations agreeing on contents and collected files —
one whose HTTP send succeeds and one whose send fails — construct the same
requests. -/
theorem compile_requests_deterministic_witness :
    (compileModel "https://godbolt.org" "ztrunk" "-O ReleaseFast"
        { readMainFile := .ok "pub fn main() void {}",
          collect := .ok [{ Filename := ["helper.zig"], Contents := "h" }],
          doRequest := .ok (), readBody := .ok "{}",
          parseBody := .ok { Code := 0, Stdout := [], Stderr := [], Asm := [] } }).posts =
      (compileModel "https://godbolt.org" "ztrunk" "-O ReleaseFast"
        { readMainFile := .ok "pub fn main() void {}",
          collect := .ok [{ Filename := ["helper.zig"], Contents := "h" }],
          doRequest := .error "connection refused", readBody := .error "no body",
          parseBody := .error "no JSON" }).posts :=
  compile_requests_deterministic "https://godbolt.org" "ztrunk" "-O ReleaseFast" _ _
    (by rfl) (by rfl)

/-- Claim C5: every `compile` invocation performs at most one HTTP
request/response cycle: it POSTs at most once, always to
`<baseURL>/api/compiler/<compiler>/compile`; when reading the main file fails
it returns that error having issued no request at all, and when the send, the
body read, or the parse fails it returns that step’s error with no retry and
no further request. -/
theorem compile_at_most_one_post (baseURL compiler args : String) (w : CompileWorld) :
    (compileModel baseURL compiler args w).posts.length ≤ 1 ∧
    (∀ pr ∈ (compileModel baseURL compiler args w).posts,
      pr.1 = compileURL baseURL compiler) ∧
    (∀ e, w.readMainFile = .error e →
      (compileModel baseURL compiler args w).posts = [] ∧
      (compileModel baseURL compiler args w).result =
        .error ("failed to read file: " ++ e)) ∧
    (∀ source e, w.readMainFile = .ok source → w.doRequest = .error e →
      (compileModel baseURL compiler args w).result =
        .error ("failed to send request: " ++ e)) ∧
    (∀ source e, w.readMainFile = .ok source → w.doRequest = .ok () →
      w.readBody = .error e →
      (compileModel baseURL compiler args w).result =
        .error ("failed to read response: " ++ e)) ∧
    (∀ source body e, w.readMainFile = .ok source → w.doRequest = .ok () →
      w.readBody = .ok body → w.parseBody = .error e →
      (compileModel baseURL compiler args w).result =
        .error ("failed to parse response: " ++ e)) := by
  refine ⟨?_, ?_, ?_, ?_, ?_, ?_⟩
  · rw [compileModel_posts]
    cases hr : w.readMainFile <;> cases hc : w.collect <;> simp
  · rw [compileModel_posts]
    cases hr : w.readMainFile <;> cases hc : w.collect <;> simp
  · intro e he
    exact ⟨by simp [compileModel, he], by simp [compileModel, he]⟩
  · intro source e hr hd
    cases hc : w.collect <;> simp [compileModel, hr, hc, hd]
  · intro source e hr hd hb
    cases hc : w.collect <;> simp [compileModel, hr, hc, hd, hb]
  · intro source body e hr hd hb hp
    cases hc : w.collect <;> simp [compileModel, hr, hc, hd, hb, hp]

/-- Witness for C5: on a concrete invocation whose send fails, the single
issued POST went to the compile endpoint and the invocation returned the send
error (no retry happened: the posts list of that invocation stayed at one). -/
theorem compile_at_most_one_post_witness :
    (compileModel "https://godbolt.org" "ztrunk" ""
        { readMainFile := .ok "src", collect := .ok [],
          doRequest := .error "timeout", readBody := .error "no body",
          parseBody := .error "no JSON" }).posts.length ≤ 1 ∧
    (compileURL "https://godbolt.org" "ztrunk", buildCompileRequest "src" [] "").1 =
      compileURL "https://godbolt.org" "ztrunk" ∧
    (compileModel "https://godbolt.org" "ztrunk" ""
        { readMainFile := .ok "src", collect := .ok [],
          doRequest := .error "timeout", readBody := .error "no body",
          parseBody := .error "no JSON" }).result =
      .error ("failed to send request: " ++ "timeout") :=
  ⟨(compile_at_most_one_post "https://godbolt.org" "ztrunk" "" _).1,
   (compile_at_most_one_post "https://godbolt.org" "ztrunk" ""
      { readMainFile := .ok "src", collect := .ok [],
        doRequest := .error "timeout", readBody := .error "no body",
        parseBody := .error "no JSON" }).2.1
     (compileURL "https://godbolt.org" "ztrunk", buildCompileRequest "src" [] "")
     (by simp [compileModel]),
   (compile_at_most_one_post "https://godbolt.org" "ztrunk" ""
      { readMainFile := .ok "src", collect := .ok [],
        doRequest := .error "timeout", readBody := .error "no body",
        parseBody := .error "no JSON" }).2.2.2.1 "src" "timeout" rfl rfl⟩

/-- Claim C10: a failure while collecting project files is not fatal to
`compile`: when the collection errors (and the main file was read), `compile`
prints a warning, every request it sends carries an empty files list (only the
main source), and if the send, body read and parse succeed it still returns
success. -/
theorem compile_collect_failure_nonfatal (baseURL compiler args msg source : String)
    (w : CompileWorld) (hr : w.readMainFile = .ok source) (hc : w.collect = .error msg) :
    (compileModel baseURL compiler args w).warnings =
      ["Warning: could not collect project files: " ++ msg] ∧
    (∀ pr ∈ (compileModel baseURL compiler args w).posts, pr.2.Files = []) ∧
    (∀ body resp, w.doRequest = .ok () → w.readBody = .ok body →
      w.parseBody = .ok resp → (compileModel baseURL compiler args w).result = .ok ()) := by
  refine ⟨?_, ?_, ?_⟩
  · cases hd : w.doRequest <;> cases hb : w.readBody <;> cases hp : w.parseBody <;>
      simp [compileModel, hr, hc, hd, hb, hp]
  · rw [compileModel_posts, hr, hc]
    simp [buildCompileRequest]
  · intro body resp hd hb hp
    simp [compileModel, hr, hc, hd, hb, hp]

/-- Witness for C10: a concrete invocation whose collection fails but whose
HTTP cycle succeeds warns, posts an empty files list, and returns success. -/
theorem compile_collect_failure_nonfatal_witness :
    (compileModel "https://godbolt.org" "ztrunk" "-O ReleaseFast"
        { readMainFile := .ok "pub fn main() void {}",
          collect := .error "permission denied",
          doRequest := .ok (), readBody := .ok "{}",
          parseBody := .ok { Code := 0, Stdout := [], Stderr := [], Asm := [] } }).warnings =
      ["Warning: could not collect project files: " ++ "permission denied"] ∧
    (∀ pr ∈ (compileModel "https://godbolt.org" "ztrunk" "-O ReleaseFast"
        { readMainFile := .ok "pub fn main() void {}",
          collect := .error "permission denied",
          doRequest := .ok (), readBody := .ok "{}",
          parseBody := .ok { Code := 0, Stdout := [], Stderr := [], Asm := [] } }).posts,
      pr.2.Files = []) ∧
    (∀ body resp,
      ({ readMainFile := .ok "pub fn main() void {}",
         collect := .error "permission denied",
         doRequest := .ok (), readBody := .ok "{}",
         parseBody := .ok { Code := 0, Stdout := [], Stderr := [], Asm := [] } } :
          CompileWorld).doRequest = .ok () →
      ({ readMainFile := .ok "pub fn main() void {}",
         collect := .error "permission denied",
         doRequest := .ok (), readBody := .ok "{}",
         parseBody := .ok { Code := 0, Stdout := [], Stderr := [], Asm := [] } } :
          CompileWorld).readBody = .ok body →
      ({ readMainFile := .ok "pub fn main() void {}",
         collect := .error "permission denied",
         doRequest := .ok (), readBody := .ok "{}",
         parseBody := .ok { Code := 0, Stdout := [], Stderr := [], Asm := [] } } :
          CompileWorld).parseBody = .ok resp →
      (compileModel "https://godbolt.org" "ztrunk" "-O ReleaseFast"
        { readMainFile := .ok "pub fn main() void {}",
          collect := .error "permission denied",
          doRequest := .ok (), readBody := .ok "{}",
          parseBody := .ok { Code := 0, Stdout := [], Stderr := [], Asm := [] } }).result =
        .ok ()) :=
  compile_collect_failure_nonfatal "https://godbolt.org" "ztrunk" "-O ReleaseFast"
    "permission denied" "pub fn main() void {}" _ (by rfl) (by rfl)

/-- `fsnotify.Op` as a bitset of the five operations; `Op&Write == Write`
becomes the `write` field, and so on. -/
structure FsnotifyOp where
  create : Bool
  write : Bool
  remove : Bool
  rename : Bool
  chmod : Bool
deriving Repr, DecidableEq

/-- An event received from `watcher.Events` (`main.go` line 321): the path it
concerns and its operation bits. -/
structure FsEvent where
  name : FPath
  op : FsnotifyOp
deriving Repr, DecidableEq

/-- The guard of the watch loop (`main.go` line 325):
`event.Name == absPath && (event.Op&Write == Write || event.Op&Create == Create)`. -/
def triggersRecompile (absPath : FPath) (ev : FsEvent) : Bool :=
  ev.name == absPath && (ev.op.write || ev.op.create)

/-- State of the watch loop’s debouncing (`main.go` lines 316–336): `live` are
the deadlines of the `time.AfterFunc` timers created and neither stopped nor
fired; `debounce` is the deadline of the timer the `debounce` variable points
to (`none` before the first qualifying event).  Times are in milliseconds. -/
structure WatchState where
  live : List Nat
  debounce : Option Nat
deriving Repr, DecidableEq

/-- Initial state of the watch loop: no timer, `debounce = nil` (line 317). -/
def watchInit : WatchState := { live := [], debounce := none }

/-- One input to the watch loop: a filesystem event arriving at time `now`
(one iteration of the `select` on `watcher.Events`), or the pending timer with
deadline `d` firing (its `AfterFunc` callback running). -/
inductive WatchInput where
  | fsEvent (now : Nat) (ev : FsEvent)
  | timerFire (d : Nat)
deriving Repr, DecidableEq

/-- The observable action of one watch-loop step: a recompile newly scheduled
(a fresh debounce timer with the given deadline), a recompile actually run
(the timer’s callback calling `compile`, line 332), or nothing. -/
inductive WatchAction where
  | scheduleRecompile (deadline : Nat)
  | runRecompile
  | idle
deriving Repr, DecidableEq

/-- One step of the watch loop (`main.go` lines 319–336).  A qualifying event
stops the pointed-to timer if it is still pending (`debounce.Stop()`, lines
326–328, a no-op on a fired timer) and schedules a new timer 100 ms ahead
(`time.AfterFunc(100*time.Millisecond, ...)`, line 329); a non-qualifying
event changes nothing; a pending timer firing leaves the loop’s variables
unchanged except that the timer is no longer pending, and runs `compile`. -/
def watchStep (absPath : FPath) (s : WatchState) : WatchInput → WatchState × WatchAction
  | .fsEvent now ev =>
    if triggersRecompile absPath ev then
      let liveStopped := match s.debounce with
        | some d => s.live.erase d
        | none => s.live
      ({ live := liveStopped ++ [now + 100], debounce := some (now + 100) },
        .scheduleRecompile (now + 100))
    else (s, .idle)
  | .timerFire d =>
    if d ∈ s.live then ({ s with live := s.live.erase d }, .runRecompile)
    else (s, .idle)

/-- The watch loop run over a list of inputs from a given state. -/
def watchRunFrom (absPath : FPath) (s : WatchState) : List WatchInput → WatchState
  | [] => s
  | i :: is => watchRunFrom absPath (watchStep absPath s i).1 is

/-- The watch loop run from its initial state. -/
def watchRun (absPath : FPath) (inputs : List WatchInput) : WatchState :=
  watchRunFrom absPath watchInit inputs

/-- The arrival time of the last qualifying filesystem event among `inputs`,
starting from a previously recorded time `q`. -/
def lastQualFrom (absPath : FPath) (q : Option Nat) : List WatchInput → Option Nat
  | [] => q
  | WatchInput.fsEvent now ev :: is =>
    lastQualFrom absPath (if triggersRecompile absPath ev then some now else q) is
  | WatchInput.timerFire _ :: is => lastQualFrom absPath q is

/-- The arrival time of the last qualifying filesystem event among `inputs`. -/
def lastQualTime (absPath : FPath) (inputs : List WatchInput) : Option Nat :=
  lastQualFrom absPath none inputs

/-- The debouncing invariant: at most one timer is pending, the pending timer
is the one the `debounce` variable points to, and its deadline is 100 ms after
the last qualifying event (recorded in `q`). -/
def DebounceInv (s : WatchState) (q : Option Nat) : Prop :=
  s.live.length ≤ 1 ∧
  ∀ d ∈ s.live, s.debounce = some d ∧ ∃ t, q = some t ∧ d = t + 100

/-- One watch-loop step preserves the debouncing invariant, with the recorded
last qualifying time updated by the step’s input. -/
theorem watchStep_inv (absPath : FPath) (s : WatchState) (q : Option Nat)
    (h : DebounceInv s q) :
    ∀ i : WatchInput,
      DebounceInv (watchStep absPath s i).1
        (match i with
         | .fsEvent now ev => if triggersRecompile absPath ev then some now else q
         | .timerFire _ => q)
  | .fsEvent now ev => by
    by_cases htr : triggersRecompile absPath ev
    · have hstopped :
          (match s.debounce with
           | some d => s.live.erase d
           | none => s.live) = [] := by
        match hl : s.live with
        | [] => cases s.debounce <;> simp
        | [d] =>
          have hdb := (h.2 d (by simp [hl])).1
          rw [hdb]
          simp
        | d :: e :: r =>
          have := h.1
          rw [hl] at this
          simp at this
      simp only [watchStep, htr, if_true, hstopped]
      refine ⟨by simp, ?_⟩
      intro d hd
      simp only [List.nil_append, List.mem_singleton] at hd
      exact ⟨by simp [hd], now, by simp [htr], by simp [hd]⟩
    · simp only [watchStep, htr, if_false]
      exact h
  | .timerFire d => by
    by_cases hd : d ∈ s.live
    · simp only [watchStep, hd, if_true]
      refine ⟨le_trans (List.length_erase_le _ _) h.1, ?_⟩
      intro e he
      exact h.2 e (List.mem_of_mem_erase he)
    · simp only [watchStep, hd, if_false]
      exact h

/-- Running the watch loop preserves the debouncing invariant, accumulating
the last qualifying time. -/
theorem watchRunFrom_inv (absPath : FPath) :
    ∀ (inputs : List WatchInput) (s : WatchState) (q : Option Nat),
      DebounceInv s q →
      DebounceInv (watchRunFrom absPath s inputs) (lastQualFrom absPath q inputs)
  | [], _s, _q, h => h
  | WatchInput.fsEvent now ev :: is, s, q, h => by
    have hstep := watchStep_inv absPath s q h (.fsEvent now ev)
    simp only [watchRunFrom, lastQualFrom]
    exact watchRunFrom_inv absPath is _ _ hstep
  | WatchInput.timerFire d :: is, s, q, h => by
    have hstep := watchStep_inv absPath s q h (.timerFire d)
    simp only [watchRunFrom, lastQualFrom]
    exact watchRunFrom_inv absPath is _ _ hstep

/-- Claim C6: in watch mode, a step of the watch loop schedules a recompile if
and only if the filesystem event’s path equals the watched file’s absolute
path and its operation includes Write or Create; any other event (another file
in the directory, or Remove/Rename/Chmod on the watched file) leaves the loop
state unchanged and schedules nothing. -/
theorem watch_schedules_recompile_iff (absPath : FPath) (s : WatchState)
    (now : Nat) (ev : FsEvent) :
    ((watchStep absPath s (.fsEvent now ev)).2 = .scheduleRecompile (now + 100) ↔
      ev.name = absPath ∧ (ev.op.write = true ∨ ev.op.create = true)) ∧
    (¬(ev.name = absPath ∧ (ev.op.write = true ∨ ev.op.create = true)) →
      watchStep absPath s (.fsEvent now ev) = (s, .idle)) := by
  have hbool : triggersRecompile absPath ev = true ↔
      ev.name = absPath ∧ (ev.op.write = true ∨ ev.op.create = true) := by
    simp [triggersRecompile]
  refine ⟨⟨fun hact => ?_, fun hcond => ?_⟩, fun hcond => ?_⟩
  · by_cases htr : triggersRecompile absPath ev
    · exact hbool.1 htr
    · simp [watchStep, htr] at hact
  · have htr := hbool.2 hcond
    simp [watchStep, htr]
  · have htr : triggersRecompile absPath ev = false :=
      Bool.not_eq_true _ ▸ fun hh => hcond (hbool.1 hh)
    simp [watchStep, htr]

/-- Witness for C6: a Chmod-only event on the watched file schedules nothing
and leaves the watch state unchanged. -/
theorem watch_schedules_recompile_iff_witness :
    watchStep ["home", "w.zig"] { live := [300], debounce := some 300 }
        (.fsEvent 500
          { name := ["home", "w.zig"],
            op := { create := false, write := false, remove := false,
                    rename := false, chmod := true } }) =
      ({ live := [300], debounce := some 300 }, .idle) :=
  (watch_schedules_recompile_iff ["home", "w.zig"] { live := [300], debounce := some 300 }
    500
    { name := ["home", "w.zig"],
      op := { create := false, write := false, remove := false,
              rename := false, chmod := true } }).2 (by decide)

/-- Claim C7: file-change events are debounced — after any sequence of inputs
the watch loop holds at most one pending recompile timer, and a pending timer
always fires 100 ms after the last qualifying event (every qualifying event
stops the previously pending timer before scheduling the new one). -/
theorem watch_debounce_single_pending (absPath : FPath) (inputs : List WatchInput) :
    (watchRun absPath inputs).live.length ≤ 1 ∧
    ∀ d ∈ (watchRun absPath inputs).live,
      ∃ t, lastQualTime absPath inputs = some t ∧ d = t + 100 := by
  have h := watchRunFrom_inv absPath inputs watchInit none
    ⟨by simp [watchInit], by simp [watchInit]⟩
  simp only [watchRun, lastQualTime]
  exact ⟨h.1, fun d hd => (h.2 d hd).2⟩

/-- Witness for C7: after two qualifying writes at 50 ms and 200 ms the loop
holds the single timer with deadline 300 ms = 200 ms + 100 ms. -/
theorem watch_debounce_single_pending_witness :
    ∃ t, lastQualTime ["home", "w.zig"]
        [ .fsEvent 50
            { name := ["home", "w.zig"],
              op := { create := false, write := true, remove := false,
                      rename := false, chmod := false } }
        , .fsEvent 200
            { name := ["home", "w.zig"],
              op := { create := false, write := true, remove := false,
                      rename := false, chmod := false } } ] = some t ∧ 300 = t + 100 :=
  (watch_debounce_single_pending ["home", "w.zig"]
    [ .fsEvent 50
        { name := ["home", "w.zig"],
          op := { create := false, write := true, remove := false,
                  rename := false, chmod := false } }
    , .fsEvent 200
        { name := ["home", "w.zig"],
          op := { create := false, write := true, remove := false,
                  rename := false, chmod := false } } ]).2 300 (by decide)

/-- A top-level observable action of the program after flag parsing: creating
the filesystem watcher (`fsnotify.NewWatcher`, line 290) or running one
`compile` invocation. -/
inductive TopEvent where
  | watcherCreated
  | compileRun
deriving Repr, DecidableEq

/-- The `compile` runs emitted by the watch loop over a list of inputs: each
step whose action is `runRecompile` (a debounce timer firing, line 332) runs
`compile` once; no other step runs it. -/
def watchEmits (absPath : FPath) (s : WatchState) : List WatchInput → List TopEvent
  | [] => []
  | i :: is =>
    (match (watchStep absPath s i).2 with
     | .runRecompile => [TopEvent.compileRun]
     | _ => []) ++ watchEmits absPath (watchStep absPath s i).1 is

/-- The trace of `main` after flag parsing (`main.go` lines 380–391): with
`-once` set it runs a single `compile` and returns, never creating a watcher;
otherwise it enters `watch` (lines 289–344), which creates the watcher, runs
one initial `compile` (line 312), and then runs `compile` only when the watch
loop fires a debounce timer. -/
def mainTrace (once : Bool) (absPath : FPath) (inputs : List WatchInput) : List TopEvent :=
  if once then [TopEvent.compileRun]
  else TopEvent.watcherCreated :: TopEvent.compileRun ::
    watchEmits absPath watchInit inputs

/-- Every event the watch loop emits is a `compile` run. -/
theorem watchEmits_all_compileRun (absPath : FPath) :
    ∀ (inputs : List WatchInput) (s : WatchState),
      ∀ e ∈ watchEmits absPath s inputs, e = TopEvent.compileRun
  | [], _s => by simp [watchEmits]
  | i :: is, s => by
    intro e he
    simp only [watchEmits, List.mem_append] at he
    rcases he with he | he
    · rcases hact : (watchStep absPath s i).2 with d | _ | _
      · simp [hact] at he
      · simp [hact] at he
        exact he
      · simp [hact] at he
    · exact watchEmits_all_compileRun absPath is (watchStep absPath s i).1 e he

/-- Claim C8: a compile is triggered by exactly one of two mechanisms — with
`-once` the program performs a single compile and exits without creating a
watcher; without it the program creates the watcher, performs one initial
compile, and thereafter compiles only when the watch loop reacts to
filesystem events (no inputs, no further compiles). -/
theorem main_compile_dispatch (absPath : FPath) (inputs : List WatchInput) :
    mainTrace true absPath inputs = [TopEvent.compileRun] ∧
    (mainTrace true absPath inputs).count TopEvent.watcherCreated = 0 ∧
    mainTrace false absPath inputs =
      TopEvent.watcherCreated :: TopEvent.compileRun ::
        watchEmits absPath watchInit inputs ∧
    watchEmits absPath watchInit [] = [] ∧
    ∀ e ∈ watchEmits absPath watchInit inputs, e = TopEvent.compileRun := by
  refine ⟨by simp [mainTrace], by simp [mainTrace], by simp [mainTrace],
    by simp [watchEmits], ?_⟩
  exact watchEmits_all_compileRun absPath inputs watchInit

/-- Witness for C8: on the concrete trace where a Create event on the watched
file schedules the debounce timer and that timer then fires, the watch loop
really emits a `compile` run — `watchEmits` is `[compileRun]`, so the watch
trace is watcher creation, the initial compile, and one event-driven
compile — and the claim theorem applies to that emitted event. -/
theorem main_compile_dispatch_witness :
    watchEmits ["home", "w.zig"] watchInit
        [ .fsEvent 50
            { name := ["home", "w.zig"],
              op := { create := true, write := false, remove := false,
                      rename := false, chmod := false } }
        , .timerFire 150 ] = [TopEvent.compileRun] ∧
    mainTrace false ["home", "w.zig"]
        [ .fsEvent 50
            { name := ["home", "w.zig"],
              op := { create := true, write := false, remove := false,
                      rename := false, chmod := false } }
        , .timerFire 150 ] =
      [TopEvent.watcherCreated, TopEvent.compileRun, TopEvent.compileRun] ∧
    TopEvent.compileRun = TopEvent.compileRun :=
  ⟨by decide, by decide,
   (main_compile_dispatch ["home", "w.zig"]
      [ .fsEvent 50
          { name := ["home", "w.zig"],
            op := { create := true, write := false, remove := false,
                    rename := false, chmod := false } }
      , .timerFire 150 ]).2.2.2.2 TopEvent.compileRun (by decide)⟩
